import Mathlib

/-!
# Verification of the company-email scraper core

A shallow embedding, in Lean 4, of the Go repository `web-scrapper-go`
(package `scraper`, file `scraper/company_scrapper.go`, together with the
orchestrator in `main.go` and the error taxonomy in `models/errors.go`).

Modelling conventions:
* Go's `(T, error)` return convention becomes `T × Option ScrapeError`
  (`none` = `nil` error), and internal helpers that only forward values
  use `Except ScrapeError T`.
* All I/O performed by the code (HTTP calls, reading the response body)
  is modelled by explicit "world" records mapping a request URL to the
  outcome the environment produces for it; the functions under
  verification are pure functions of those worlds.
* Strings are analysed as `List Char`; the character classes of the
  email regular expression and of `net/url` parsing are ASCII classes,
  which coincide with Lean's `Char.isAlpha` / `Char.isDigit`.
-/

set_option maxRecDepth 4000

namespace Scraper

/-- The static error values of `models/errors.go`, one constructor per
`errors.New` variable.  Constructors carry the extra datum that the Go
code attaches with `fmt.Errorf("%w: %s", ...)` where a later claim
depends on it (company name, URL, HTTP status text). -/
inductive ScrapeError where
  | initConfig
  | apiKeyNotSet
  | requestFailed
  | decodeFailed
  | nonOKStatus (status : String)
  | noResultsFound (company : String)
  | skippingFacebookURL (url : String)
  | fetchFailed
  | readFailed
  | noEmailFound (company : String)
  | invalidCompanyURL (url : String)
  | writeFileFailed
deriving DecidableEq, Repr

/-- One element of the `organic` array of the SerpAPI response
(`type SerpAPIResponse struct { Organic []struct { Link string } }`). -/
structure OrganicItem where
  link : String
deriving DecidableEq, Repr

/-- The decoded SerpAPI response body. -/
structure SerpAPIResponse where
  organic : List OrganicItem
deriving DecidableEq, Repr

/-- `getAPIKey` (company_scrapper.go): the key read from configuration;
an empty key yields `models.ErrAPIKeyNotSet`.  The viper lookup itself is
modelled by passing the configured string in. -/
def getAPIKey (apiKey : String) : Except ScrapeError String :=
  if apiKey = "" then .error .apiKeyNotSet else .ok apiKey

/-- Upper-case hexadecimal digit for a value `< 16`, as produced by Go's
percent-encoder. -/
def hexUpper (n : Nat) : Char :=
  if n < 10 then Char.ofNat ('0'.toNat + n) else Char.ofNat ('A'.toNat + n - 10)

/-- The bytes Go's `url.QueryEscape` leaves unescaped: ASCII letters,
digits, and `-`, `_`, `.`, `~`. -/
def isUnreservedByte (b : Nat) : Bool :=
  (0x41 ≤ b && b ≤ 0x5a) || (0x61 ≤ b && b ≤ 0x7a) ||
  (0x30 ≤ b && b ≤ 0x39) || b = 0x2d || b = 0x5f || b = 0x2e || b = 0x7e

/-- Go's `url.QueryEscape`: escape the UTF-8 bytes of `s`, keeping
unreserved bytes, turning a space into `+` and every other byte into
`%XX` with upper-case hex. -/
def queryEscape (s : String) : String :=
  String.mk ((s.toUTF8.toList.map UInt8.toNat).flatMap fun b =>
    if isUnreservedByte b then [Char.ofNat b]
    else if b = 0x20 then ['+']
    else ['%', hexUpper (b / 16), hexUpper (b % 16)])

/-- `buildSearchURL` (company_scrapper.go): base URL plus the encoded
query parameters.  `query.Values` on the fixed parameter struct cannot
fail, and `url.Values.Encode` emits the keys in sorted order
(`api_key`, `engine`, `num`, `q`), so the Go function's error branch is
unreachable and the result is this exact string. -/
def buildSearchURL (companyName apiKey : String) : String :=
  "https://google.serper.dev/search?api_key=" ++ queryEscape apiKey ++
    "&engine=google&num=1&q=" ++ queryEscape companyName

/-- The environment `GetSearchResults` runs against: whether
`configs.InitConfig` fails, the configured API key, and — as functions of
the request URL — the transport outcome of `client.Do`, the HTTP status
code and status text, and the outcome of JSON-decoding the body.
`http.NewRequestWithContext` failure and `client.Do` failure both return
`models.ErrRequestFailed` in the Go code, so a single `transportErr`
flag models both. -/
structure SearchWorld where
  initConfigErr : Bool
  apiKey : String
  transportErr : String → Bool
  statusCode : String → Nat
  statusText : String → String
  decodeErr : String → Bool
  decoded : String → SerpAPIResponse

/-- `extractFirstResultURL` (company_scrapper.go lines 294–300): fail
with `ErrNoResultsFound` naming the company when `organic` is empty,
otherwise return the first element's `link`. -/
def extractFirstResultURL (serpResponse : SerpAPIResponse) (companyName : String) :
    String × Option ScrapeError :=
  match serpResponse.organic with
  | [] => ("", some (.noResultsFound companyName))
  | o :: _ => (o.link, none)

/-- `GetSearchResults` (company_scrapper.go lines 201–229): init config,
read the API key, build the search URL, perform the request
(`makeHTTPRequest`: transport error → `ErrRequestFailed`, non-200 status
→ `ErrNonOKStatus` carrying the status text), decode the body
(`decodeResponse`), and extract the first organic link. -/
def GetSearchResults (w : SearchWorld) (companyName : String) :
    String × Option ScrapeError :=
  if w.initConfigErr then ("", some .initConfig)
  else
    match getAPIKey w.apiKey with
    | .error e => ("", some e)
    | .ok apiKey =>
      let searchURL := buildSearchURL companyName apiKey
      if w.transportErr searchURL then ("", some .requestFailed)
      else if w.statusCode searchURL ≠ 200 then
        ("", some (.nonOKStatus (w.statusText searchURL)))
      else if w.decodeErr searchURL then ("", some .decodeFailed)
      else extractFirstResultURL (w.decoded searchURL) companyName

/-!
## The email regular expression

`GetCompanyEmail` runs
`regexp.MustCompile([a-zA-Z0-9._%+-]+@[a-zA-Z0-9.-]+\.[a-zA-Z]\x7b2,\x7d).FindAllString(body, -1)`.
The functions below implement that scan directly: Go's engine returns,
repeatedly, the match starting at the leftmost possible position, with
greedy (preferred-longest) quantifiers, and resumes after the end of the
previous match (matches never overlap and are never empty here, since
the pattern requires at least one character).

For this particular pattern greediness resolves deterministically:
* the local part must be the maximal run of local-part characters from
  the start position, because the following `@` is not a local-part
  character (so backtracking to a shorter run can never succeed);
* the portion after `@` lies inside the maximal run of domain
  characters (both `.` and the top-level letters are domain
  characters), and the greedy `[a-zA-Z0-9.-]+` picks the *last* dot of
  that run that is followed by at least two letters, after which
  `[a-zA-Z]\x7b2,\x7d` takes the maximal letter run.
-/

/-- The class `[a-zA-Z0-9._%+-]` of the regex's local part. -/
def isLocalChar (c : Char) : Bool :=
  c.isAlpha || c.isDigit || c = '.' || c = '_' || c = '%' || c = '+' || c = '-'

/-- The class `[a-zA-Z0-9.-]` of the regex's domain part. -/
def isDomainChar (c : Char) : Bool :=
  c.isAlpha || c.isDigit || c = '.' || c = '-'

/-- Whether a list starts with at least two ASCII letters
(the requirement `[a-zA-Z]\x7b2,\x7d` places on the text after a dot). -/
def twoAlpha : List Char → Bool
  | a :: b :: _ => a.isAlpha && b.isAlpha
  | _ => false

/-- Index of the *last* dot of `ds` that is followed (inside `ds`) by at
least two ASCII letters — the dot the greedy `[a-zA-Z0-9.-]+` settles
on.  `none` when no such dot exists. -/
def findLastGoodDot : List Char → Option Nat
  | [] => none
  | c :: rest =>
    match findLastGoodDot rest with
    | some j => some (j + 1)
    | none => if c = '.' && twoAlpha rest then some 0 else none

/-- Length of the maximal ASCII-letter run at the head of `l`
(what the greedy `[a-zA-Z]\x7b2,\x7d` consumes). -/
def alphaRunLen (l : List Char) : Nat :=
  (l.takeWhile Char.isAlpha).length

/-- Length of the regex match anchored at the head of `cs`, or `none`
if no match starts there: maximal local-part run, a literal `@`, then
inside the maximal domain-character run the last good dot (which must
not be the run's first character, since `[a-zA-Z0-9.-]+` needs at least
one character) followed by the maximal letter run. -/
def matchLen (cs : List Char) : Option Nat :=
  let lp := cs.takeWhile isLocalChar
  if lp.length = 0 then none
  else
    match cs.drop lp.length with
    | [] => none
    | c :: rest =>
      if c = '@' then
        let drun := rest.takeWhile isDomainChar
        match findLastGoodDot drun with
        | some k =>
          if k = 0 then none
          else some (lp.length + 1 + (k + 1 + alphaRunLen (drun.drop (k + 1))))
        | none => none
      else none

/-- `FindAllString(body, -1)` for the email regex, with explicit fuel:
at each position try to match; on success emit the match and resume
after it, otherwise advance one character.  Each step consumes at least
one character, so fuel `cs.length` (as used by `findEmails`) never runs
out. -/
def findEmailsAux : Nat → List Char → List (List Char)
  | 0, _ => []
  | _, [] => []
  | fuel + 1, c :: rest =>
    match matchLen (c :: rest) with
    | some n => (c :: rest).take n :: findEmailsAux fuel ((c :: rest).drop n)
    | none => findEmailsAux fuel rest

/-- All non-overlapping matches of the email regex in `cs`, in document
order. -/
def findEmails (cs : List Char) : List (List Char) :=
  findEmailsAux cs.length cs

/-- The declarative reading of the email pattern
`[a-zA-Z0-9._%+-]+@[a-zA-Z0-9.-]+\.[a-zA-Z]\x7b2,\x7d`: a non-empty
local part, `@`, a non-empty domain-character part, a dot, and at least
two letters. -/
def isEmailShape (e : List Char) : Prop :=
  ∃ lp dom tld, e = lp ++ '@' :: (dom ++ '.' :: tld) ∧
    lp ≠ [] ∧ lp.all isLocalChar ∧
    dom ≠ [] ∧ dom.all isDomainChar ∧
    2 ≤ tld.length ∧ tld.all Char.isAlpha

/-!
## A model of `net/url.ParseRequestURI`

`GetCompanyEmail` validates its URL with `url.ParseRequestURI` and then
inspects `parsedURL.Scheme` and `parsedURL.Host`, so only those two
fields are carried in the result.  The model follows `net/url`'s
`parse(rawURL, viaRequest=true)` acceptance behaviour step by step:
control-character check, empty-string check, the `*` special case,
`getScheme`, the cut at the first `?` (query), the "opaque" early
return (no path validation) and the invalid case for a scheme-less rest
not starting in `/`, authority parsing (`parseAuthority`: host after
the last `@`, `validUserinfo` plus `unescape(·, encodeUserPassword)` on
the userinfo, `parseHost` with bracket/port rules and `unescape(·,
encodeHost)`, including the RFC 6874 `%25` zone split), and finally
`setPath`'s `unescape(rest, encodePath)` on the remaining path.

`unescape` is modelled as a validator only: percent-*decoding* of the
accepted host is not applied, because the caller tests the host for
emptiness alone and decoding never turns a non-empty host into an empty
one (each `%XX` triple decodes to one byte). -/

/-- The two fields of `url.URL` the scraper reads. -/
structure GoURL where
  scheme : String
  host : String
deriving DecidableEq, Repr

/-- ASCII control bytes (rejected anywhere in a URL by `net/url`). -/
def isCtlChar (c : Char) : Bool :=
  c.toNat < 0x20 || c.toNat = 0x7f

/-- ASCII letter, the only character allowed to start a scheme. -/
def isSchemeAlpha (c : Char) : Bool :=
  ('a' ≤ c && c ≤ 'z') || ('A' ≤ c && c ≤ 'Z')

/-- `net/url`'s `getScheme`: scan for a `:`; letters always continue,
digits and `+ - .` continue only after the first character (otherwise
the whole input is a scheme-less rest), any other character means no
scheme, and a `:` at position zero is the "missing protocol scheme"
error (`none`).  Returns the scheme and the remainder after `:`. -/
def getSchemeAux (orig : List Char) : List Char → List Char → Option (List Char × List Char)
  | [], _ => some ([], orig)
  | c :: rest, acc =>
    if isSchemeAlpha c then getSchemeAux orig rest (acc ++ [c])
    else if c.isDigit || c = '+' || c = '-' || c = '.' then
      if acc.isEmpty then some ([], orig) else getSchemeAux orig rest (acc ++ [c])
    else if c = ':' then
      if acc.isEmpty then none else some (acc, rest)
    else some ([], orig)

/-- Hexadecimal digit, as accepted inside a `%XX` escape (`ishex`). -/
def isHexChar (c : Char) : Bool :=
  c.isDigit || ('a' ≤ c && c ≤ 'f') || ('A' ≤ c && c ≤ 'F')

/-- Value of a hexadecimal digit (`unhex`); `0` off-domain (never used
off-domain: every call site has checked `isHexChar` first). -/
def hexVal (c : Char) : Nat :=
  if c.isDigit then c.toNat - '0'.toNat
  else if 'a' ≤ c && c ≤ 'f' then c.toNat - 'a'.toNat + 10
  else if 'A' ≤ c && c ≤ 'F' then c.toNat - 'A'.toNat + 10
  else 0

/-- Every `%` is followed by two hexadecimal digits — the only failure
mode of `net/url`'s `unescape` in the `encodePath` and
`encodeUserPassword` modes, whose `shouldEscape` byte check is
restricted to the host/zone modes.  Used for the path (`setPath`) and
the userinfo. -/
def validPercents : List Char → Bool
  | [] => true
  | '%' :: a :: b :: rest => isHexChar a && isHexChar b && validPercents rest
  | '%' :: _ => false
  | _ :: rest => validPercents rest

/-- The bytes `shouldEscape(c, encodeHost)` leaves unescaped: ASCII
alphanumerics, the sub-delims `! $ & ' ( ) * + , ; =`, the IP-literal
punctuation `: [ ]`, the legacy `< > "`, and the marks `- _ . ~`.
Every other byte — all of them ASCII — must be escaped in a host. -/
def isHostChar (c : Char) : Bool :=
  c.isAlpha || c.isDigit ||
  c = '!' || c = '$' || c = '&' || c = Char.ofNat 0x27 || c = '(' || c = ')' ||
  c = '*' || c = '+' || c = ',' || c = ';' || c = '=' || c = ':' ||
  c = '[' || c = ']' || c = '<' || c = '>' || c = Char.ofNat 0x22 ||
  c = '-' || c = '_' || c = '.' || c = '~'

/-- `unescape(·, encodeHost)` as a validator: a `%` needs two hex
digits whose value is at least `0x80` (a non-ASCII byte) unless the
triple is exactly `%25`; a `+` passes unchecked; any other character
below `0x80` must be a host character (`shouldEscape` check);
characters `0x80` and above pass. -/
def unescapeHostOk : List Char → Bool
  | [] => true
  | '%' :: a :: b :: rest =>
    isHexChar a && isHexChar b && (decide (8 ≤ hexVal a) || (a = '2' && b = '5')) &&
    unescapeHostOk rest
  | '%' :: _ => false
  | '+' :: rest => unescapeHostOk rest
  | c :: rest => (decide (0x80 ≤ c.toNat) || isHostChar c) && unescapeHostOk rest

/-- `unescape(·, encodeZone)` as a validator (RFC 6874 zone after
`%25` in a bracketed host): a `%` needs two hex digits, and the escaped
byte must be `%25` itself, a space, or a byte `shouldEscape(·,
encodeHost)` would accept; unescaped characters follow the same
host-character rule as `unescapeHostOk`. -/
def unescapeZoneOk : List Char → Bool
  | [] => true
  | '%' :: a :: b :: rest =>
    isHexChar a && isHexChar b &&
    ((a = '2' && b = '5') || hexVal a * 16 + hexVal b = 0x20 ||
      isHostChar (Char.ofNat (hexVal a * 16 + hexVal b))) &&
    unescapeZoneOk rest
  | '%' :: _ => false
  | '+' :: rest => unescapeZoneOk rest
  | c :: rest => (decide (0x80 ≤ c.toNat) || isHostChar c) && unescapeZoneOk rest

/-- Index of the first occurrence of `sub` (Go's `strings.Index`),
`none` when absent. -/
def indexOfSub (sub : List Char) : List Char → Option Nat
  | [] => if sub.isEmpty then some 0 else none
  | c :: rest =>
    if sub.isPrefixOf (c :: rest) then some 0
    else
      match indexOfSub sub rest with
      | some j => some (j + 1)
      | none => none

/-- `net/url`'s `validOptionalPort`: empty, or `:` followed by decimal
digits only. -/
def validOptionalPort : List Char → Bool
  | [] => true
  | ':' :: ds => ds.all Char.isDigit
  | _ => false

/-- Index of the last occurrence of `c` (Go's `strings.LastIndex` for a
one-byte needle), `none` when absent. -/
def lastIndexOf (c : Char) : List Char → Option Nat
  | [] => none
  | x :: rest =>
    match lastIndexOf c rest with
    | some j => some (j + 1)
    | none => if x = c then some 0 else none

/-- The characters `net/url`'s `validUserinfo` accepts. -/
def isUserinfoChar (c : Char) : Bool :=
  c.isAlpha || c.isDigit ||
  c = '-' || c = '.' || c = '_' || c = ':' || c = '~' || c = '!' || c = '$' ||
  c = '&' || c = Char.ofNat 0x27 || c = '(' || c = ')' || c = '*' || c = '+' ||
  c = ',' || c = ';' || c = '=' || c = '%' || c = '@'

/-- `net/url`'s `parseHost`: a bracketed host needs a closing `]` with
only an optional `:port` after it, and its pre-`]` part is split at a
`%25` into a host segment (`unescape(·, encodeHost)`) and a RFC 6874
zone segment (`unescape(·, encodeZone)`), the `]`-and-port tail going
through the host mode; a non-bracketed host needs whatever follows its
last `:` to be a valid optional port, and is validated whole in the
host mode.  The (still escaped) host text is returned unchanged. -/
def parseHost (host : List Char) : Option (List Char) :=
  match host with
  | '[' :: _ =>
    match lastIndexOf ']' host with
    | none => none
    | some i =>
      if validOptionalPort (host.drop (i + 1)) then
        match indexOfSub ['%', '2', '5'] (host.take i) with
        | some z =>
          if unescapeHostOk (host.take z) && unescapeZoneOk ((host.take i).drop z)
              && unescapeHostOk (host.drop i) then some host
          else none
        | none => if unescapeHostOk host then some host else none
      else none
  | _ =>
    match lastIndexOf ':' host with
    | some i =>
      if validOptionalPort (host.drop i) && unescapeHostOk host then some host
      else none
    | none => if unescapeHostOk host then some host else none

/-- `net/url`'s `parseAuthority`: split userinfo from host at the *last*
`@`; the userinfo must pass `validUserinfo` and (via
`unescape(·, encodeUserPassword)` on its username/password halves —
equivalent to one pass, since no valid `%XX` triple contains the `:`
cut point) well-formed percent escapes; then `parseHost`.  Go parses
the host before validating the userinfo; both must succeed, so the
order does not affect acceptance. -/
def parseAuthority (authority : List Char) : Option (List Char) :=
  match lastIndexOf '@' authority with
  | some i =>
    if (authority.take i).all isUserinfoChar && validPercents (authority.take i) then
      parseHost (authority.drop (i + 1))
    else none
  | none => parseHost authority

/-- `url.ParseRequestURI`, restricted to the `Scheme` and `Host`
fields.  After the authority (when present) the remaining path — the
original `rest` for the scheme-less or single-slash forms — must pass
`setPath`'s `unescape(·, encodePath)`, i.e. have well-formed percent
escapes; the opaque (rootless, non-empty scheme) form returns before
`setPath` and is not so validated. -/
def parseRequestURI (raw : String) : Option GoURL :=
  let cs := raw.toList
  if cs.any isCtlChar then none
  else if cs.isEmpty then none
  else if cs = ['*'] then some ⟨"", ""⟩
  else
    match getSchemeAux cs cs [] with
    | none => none
    | some (schemeCs, afterScheme) =>
      let scheme := String.mk (schemeCs.map Char.toLower)
      let rest := afterScheme.takeWhile (fun c => c ≠ '?')
      if rest.head? ≠ some '/' then
        if scheme ≠ "" then some ⟨scheme, ""⟩ else none
      else if (rest.drop 1).head? = some '/' then
        let afterSlashes := rest.drop 2
        let authority := afterSlashes.takeWhile (fun c => c ≠ '/')
        let path := afterSlashes.dropWhile (fun c => c ≠ '/')
        match parseAuthority authority with
        | some h => if validPercents path then some ⟨scheme, String.mk h⟩ else none
        | none => none
      else if validPercents rest then some ⟨scheme, ""⟩ else none

/-!
## `GetCompanyEmail` -/

/-- Go's `strings.Contains s substr`. -/
def hasSubstrList (sub : List Char) : List Char → Bool
  | [] => sub.isEmpty
  | c :: rest => sub.isPrefixOf (c :: rest) || hasSubstrList sub rest

/-- `strings.Contains` on strings, argument order as in Go. -/
def stringContains (s substr : String) : Bool :=
  hasSubstrList substr.toList s.toList

/-- The environment of the second HTTP call (`http.DefaultClient.Do` on
the company URL) and of reading its body: all outcomes are functions of
the fetched URL.  As for the search call, request-construction failure
and transport failure both yield `models.ErrFetchFailed` and share one
flag. -/
structure FetchWorld where
  transportErr : String → Bool
  statusCode : String → Nat
  statusText : String → String
  readErr : String → Bool
  body : String → String

/-- The email-extraction tail of `GetCompanyEmail` (company_scrapper.go
lines 343–356): run the regex over the body, fail with
`ErrNoEmailFound` naming the company on zero matches, otherwise return
the first match. -/
def extractFirstEmail (bodyStr companyName : String) : String × Option ScrapeError :=
  match findEmails bodyStr.toList with
  | [] => ("", some (.noEmailFound companyName))
  | e :: _ => (String.mk e, none)

/-- The fetch-and-extract tail of `GetCompanyEmail` after validation
(company_scrapper.go lines 314–356): transport failure →
`ErrFetchFailed`; non-200 status → `ErrNonOKStatus` with the status
text; body-read failure → `ErrReadFailed`; then extraction. -/
def fetchAndExtractEmail (w : FetchWorld) (companyURL companyName : String) :
    String × Option ScrapeError :=
  if w.transportErr companyURL then ("", some .fetchFailed)
  else if w.statusCode companyURL ≠ 200 then
    ("", some (.nonOKStatus (w.statusText companyURL)))
  else if w.readErr companyURL then ("", some .readFailed)
  else extractFirstEmail (w.body companyURL) companyName

/-- `GetCompanyEmail` (company_scrapper.go lines 302–356): skip any URL
containing `"facebook.com"` (`ErrSkippingFacebookURL`), then validate
with `url.ParseRequestURI` rejecting parse failure, empty scheme or
empty host (`ErrInvalidCompanyURL`), then fetch and extract. -/
def GetCompanyEmail (w : FetchWorld) (companyURL companyName : String) :
    String × Option ScrapeError :=
  if stringContains companyURL "facebook.com" then
    ("", some (.skippingFacebookURL companyURL))
  else
    match parseRequestURI companyURL with
    | none => ("", some (.invalidCompanyURL companyURL))
    | some parsedURL =>
      if parsedURL.scheme = "" ∨ parsedURL.host = "" then
        ("", some (.invalidCompanyURL companyURL))
      else fetchAndExtractEmail w companyURL companyName

/-!
## `WriteEmailsToFile` and `ReadCompanyNames` -/

/-- `WriteEmailsToFile` (company_scrapper.go lines 358–365): append
`fmt.Sprintf("%s : %s\n", companyName, email)` to the file.  The file is
modelled by its contents; `writeErr` is the environment's verdict on the
`WriteString` call (a failed write is modelled as writing nothing, and
returns `ErrWriteFileFailed`). -/
def WriteEmailsToFile (writeErr : Bool) (fileContents companyName email : String) :
    String × Option ScrapeError :=
  if writeErr then (fileContents, some .writeFileFailed)
  else (fileContents ++ (companyName ++ " : " ++ email ++ "\n"), none)

/-- Split a list at its first newline: the prefix before it and, when a
newline exists, the remainder after it (`bytes.IndexByte(data, '\n')`
inside `bufio.ScanLines`). -/
def breakNL : List Char → List Char × Option (List Char)
  | [] => ([], none)
  | c :: rest =>
    if c = '\n' then ([], some rest)
    else
      let p := breakNL rest
      (c :: p.1, p.2)

/-- `bufio`'s `dropCR`: remove one trailing `\r` from a scanned line. -/
def dropCR (l : List Char) : List Char :=
  if l.getLast? = some '\r' then l.dropLast else l

/-- `bufio.Scanner` with `ScanLines`, fuelled (each step consumes at
least one character, so fuel `cs.length` never runs out): tokens are the
newline-separated segments with one trailing `\r` dropped, and a final
segment without a terminating newline is still a token; the empty
remainder produces no token. -/
def scanLinesAux : Nat → List Char → List (List Char)
  | 0, _ => []
  | _, [] => []
  | fuel + 1, c :: rest =>
    match breakNL (c :: rest) with
    | (line, some after) => dropCR line :: scanLinesAux fuel after
    | (line, none) => [dropCR line]

/-- `ReadCompanyNames` (company_scrapper.go lines 180–199) on the
contents of an opened file: one company name per scanned line, in file
order.  `os.Open` and `scanner.Err` failures (including the scanner's
64 KiB maximum token size) are environment failures outside this model;
the claim concerns the successfully scanned list. -/
def ReadCompanyNames (contents : String) : List String :=
  (scanLinesAux contents.toList.length contents.toList).map String.mk

/-- Build a newline-delimited input file from a list of lines (used to
state the read round-trip). -/
def mkInputFile : List String → String
  | [] => ""
  | n :: rest => n ++ "\n" ++ mkInputFile rest

/-!
## The orchestrator (`main.go`)

`main.go` reads the company list, creates one HTTP client and one
output file, and runs, for each name in order: `GetSearchResults`; on
error, log it, record `output[name] = ""` and `continue`; on success
record `output[name] = url`, call `GetCompanyEmail`, print its error if
any, and call `WriteEmailsToFile` with whatever email value came back
(ignoring the write's own error). -/

/-- Everything the per-company loop body observes and produces. -/
structure StepRecord where
  name : String
  /-- The value assigned to `output[name]`. -/
  urlRecorded : String
  /-- The error passed to `log.Printf` when `GetSearchResults` fails. -/
  searchLog : Option ScrapeError
  /-- The error passed to `fmt.Printf` when `GetCompanyEmail` fails. -/
  emailErrPrinted : Option ScrapeError
  /-- The email argument passed to `WriteEmailsToFile`, `none` when the
  write step is never reached (the `continue` path). -/
  written : Option String
deriving DecidableEq, Repr

/-- The whole-run environment: one search world (the shared
`http.Client`), one fetch world (`http.DefaultClient`), and the output
file's write behaviour. -/
structure CompanyEnv where
  search : SearchWorld
  fetch : FetchWorld
  writeErr : Bool

/-- One iteration of `main.go`'s loop, as the record of its observable
actions. -/
def processCompany (env : CompanyEnv) (name : String) : StepRecord :=
  match GetSearchResults env.search name with
  | (_, some e) =>
    { name := name, urlRecorded := "", searchLog := some e
      emailErrPrinted := none, written := none }
  | (companyURL, none) =>
    let r := GetCompanyEmail env.fetch companyURL name
    { name := name, urlRecorded := companyURL, searchLog := none
      emailErrPrinted := r.2, written := some r.1 }

/-- The accumulated state of a run: the history of `output[...]`
assignments, the output file contents, and the per-company records. -/
structure PipelineState where
  outputHist : List (String × String)
  fileContents : String
  records : List StepRecord
deriving DecidableEq, Repr

/-- One loop iteration applied to the run state: record the step, and
when the write step is reached append via `WriteEmailsToFile` (whose
error `main.go` discards). -/
def stepPipeline (env : CompanyEnv) (st : PipelineState) (name : String) : PipelineState :=
  let r := processCompany env name
  let st1 : PipelineState :=
    { st with outputHist := st.outputHist ++ [(name, r.urlRecorded)]
              records := st.records ++ [r] }
  match r.written with
  | some email =>
    { st1 with fileContents := (WriteEmailsToFile env.writeErr st1.fileContents name email).1 }
  | none => st1

/-- `main.go`'s loop over the whole company list. -/
def runPipeline (env : CompanyEnv) (companyNames : List String) : PipelineState :=
  companyNames.foldl (stepPipeline env) ⟨[], "", []⟩

/-!
## Concrete environments used to instantiate the theorems -/

/-- A benign fetch environment: every fetch succeeds with a page that
contains one email address. -/
def fetchWorldEx : FetchWorld where
  transportErr := fun _ => false
  statusCode := fun _ => 200
  statusText := fun _ => "200 OK"
  readErr := fun _ => false
  body := fun _ => "Contact us at test@example.com"

/-- A search environment whose configuration loads but whose API key is
empty. -/
def searchWorldNoKey : SearchWorld where
  initConfigErr := false
  apiKey := ""
  transportErr := fun _ => false
  statusCode := fun _ => 200
  statusText := fun _ => "200 OK"
  decodeErr := fun _ => false
  decoded := fun _ => ⟨[⟨"https://acme.example/about"⟩]⟩

/-- Like `searchWorldNoKey` but with a hostile network (transport
failures, error statuses): used to show the network is never
consulted. -/
def searchWorldNoKeyAlt : SearchWorld :=
  { searchWorldNoKey with
      transportErr := fun _ => true
      statusCode := fun _ => 500
      statusText := fun _ => "500 Internal Server Error"
      decodeErr := fun _ => true }

/-- A search environment that succeeds and resolves every company to a
Facebook page. -/
def searchWorldFacebook : SearchWorld :=
  { searchWorldNoKey with
      apiKey := "k"
      decoded := fun _ => ⟨[⟨"https://www.facebook.com/x"⟩]⟩ }

/-- Whole-run environment with the empty API key. -/
def envNoKey : CompanyEnv :=
  { search := searchWorldNoKey, fetch := fetchWorldEx, writeErr := false }

/-- Whole-run environment where resolution succeeds but the resolved
URL is skipped by validation. -/
def envFacebookResult : CompanyEnv :=
  { search := searchWorldFacebook, fetch := fetchWorldEx, writeErr := false }

/-!
## Helper lemmas -/

/-- `GetSearchResults` never pairs a non-empty string with an error. -/
lemma getSearchResults_err_empty (w : SearchWorld) (name : String) :
    (GetSearchResults w name).2 = none ∨ (GetSearchResults w name).1 = "" := by
  unfold GetSearchResults getAPIKey extractFirstResultURL
  split
  · simp
  split <;> try simp
  split
  · simp
  split
  · split
    · simp
    · split <;> simp
  · simp

/-- `extractFirstEmail` never pairs a non-empty string with an error. -/
lemma extractFirstEmail_err_empty (bodyStr name : String) :
    (extractFirstEmail bodyStr name).2 = none ∨ (extractFirstEmail bodyStr name).1 = "" := by
  unfold extractFirstEmail
  split <;> simp

/-- `GetCompanyEmail` never pairs a non-empty string with an error. -/
lemma getCompanyEmail_err_empty (w : FetchWorld) (url name : String) :
    (GetCompanyEmail w url name).2 = none ∨ (GetCompanyEmail w url name).1 = "" := by
  unfold GetCompanyEmail fetchAndExtractEmail
  repeat' split
  all_goals first
    | simp
    | exact extractFirstEmail_err_empty _ _

/-- On a `GetCompanyEmail` error the string component is empty. -/
lemma getCompanyEmail_error_fst (w : FetchWorld) (url name : String) (e : ScrapeError)
    (h : (GetCompanyEmail w url name).2 = some e) :
    (GetCompanyEmail w url name).1 = "" := by
  rcases getCompanyEmail_err_empty w url name with h' | h'
  · rw [h] at h'; cases h'
  · exact h'

/-!
## Claim theorems -/

/-- **C3.** For every decoded search-API response,
`extractFirstResultURL` fails with `ErrNoResultsFound` naming the
company exactly when the `organic` list is empty, and otherwise returns
the `link` field of the first element of `organic`, regardless of any
later elements. -/
theorem claim_C3_extractFirstResultURL (companyName : String)
    (o : OrganicItem) (rest : List OrganicItem) :
    extractFirstResultURL ⟨[]⟩ companyName
        = ("", some (.noResultsFound companyName))
    ∧ extractFirstResultURL ⟨o :: rest⟩ companyName = (o.link, none) := by
  exact ⟨rfl, rfl⟩

/-- **C7.** For every company name and email string (email possibly
empty), a successful `WriteEmailsToFile` appends to the output exactly
the line `"<company_name> : <email>\n"` and nothing else, and reports no
error. -/
theorem claim_C7_write_format (fileContents companyName email : String) :
    WriteEmailsToFile false fileContents companyName email
      = (fileContents ++ (companyName ++ " : " ++ email ++ "\n"), none) := by
  rfl

/-- **C10.** `GetSearchResults` and `GetCompanyEmail` never return a
usable value together with an error: whenever the error component is
non-nil the string component is empty (stated as the equivalent
disjunction). -/
theorem claim_C10_no_value_with_error (w : SearchWorld) (wf : FetchWorld)
    (searchName url emailName : String) :
    ((GetSearchResults w searchName).2 = none
      ∨ (GetSearchResults w searchName).1 = "")
    ∧ ((GetCompanyEmail wf url emailName).2 = none
      ∨ (GetCompanyEmail wf url emailName).1 = "") :=
  ⟨getSearchResults_err_empty w searchName, getCompanyEmail_err_empty wf url emailName⟩

/-- **C6.** For every company name, if the configured API key is the
empty string then `GetSearchResults` fails with the configuration error
`ErrAPIKeyNotSet` (provided `InitConfig` itself succeeded), and no
network call is made: the result does not depend on any of the
network-facing components of the environment. -/
theorem claim_C6_empty_key_no_network (w w' : SearchWorld) (companyName : String)
    (hkey : w.apiKey = "") :
    (w.initConfigErr = false →
      GetSearchResults w companyName = ("", some .apiKeyNotSet))
    ∧ (w'.apiKey = w.apiKey → w'.initConfigErr = w.initConfigErr →
      GetSearchResults w' companyName = GetSearchResults w companyName) := by
  constructor
  · intro hcfg
    unfold GetSearchResults getAPIKey
    simp [hcfg, hkey]
  · intro hk hc
    unfold GetSearchResults getAPIKey
    rw [hk, hkey, hc]
    simp

/-- Witness for C6: with the empty key the result is exactly the
configuration failure, and swapping in a hostile network changes
nothing. -/
theorem claim_C6_witness :
    GetSearchResults searchWorldNoKey "Acme Co" = ("", some .apiKeyNotSet)
    ∧ GetSearchResults searchWorldNoKeyAlt "Acme Co"
        = GetSearchResults searchWorldNoKey "Acme Co" :=
  ⟨(claim_C6_empty_key_no_network searchWorldNoKey searchWorldNoKeyAlt "Acme Co" rfl).1 rfl,
   (claim_C6_empty_key_no_network searchWorldNoKey searchWorldNoKeyAlt "Acme Co" rfl).2 rfl rfl⟩

/-- **C9.** The `"facebook.com"` substring check runs before URL
well-formedness validation: for every URL containing `"facebook.com"` —
malformed or not — `GetCompanyEmail` returns the skip error, never
`ErrInvalidCompanyURL`, and no fetch is attempted (the result is the
same in every fetch environment `w`). -/
theorem claim_C9_facebook_before_validation (w : FetchWorld)
    (companyURL companyName : String)
    (h : stringContains companyURL "facebook.com" = true) :
    GetCompanyEmail w companyURL companyName
      = ("", some (.skippingFacebookURL companyURL)) := by
  unfold GetCompanyEmail
  simp [h]

/-- Witness for C9: `"facebook.com/page"` is rejected by
`ParseRequestURI` (no scheme), yet `GetCompanyEmail` reports the skip
error, not the invalid-URL error. -/
theorem claim_C9_witness :
    stringContains "facebook.com/page" "facebook.com" = true
    ∧ parseRequestURI "facebook.com/page" = none
    ∧ GetCompanyEmail fetchWorldEx "facebook.com/page" "Test Company"
        = ("", some (.skippingFacebookURL "facebook.com/page")) :=
  ⟨by decide, by decide,
    claim_C9_facebook_before_validation fetchWorldEx "facebook.com/page" "Test Company"
      (by decide)⟩

/-- **C5.** Validation in `GetCompanyEmail`: any URL containing
`"facebook.com"` is rejected with the skip error regardless of scheme
or path; otherwise a URL that fails to parse, or parses with an empty
scheme or empty host, is rejected with `ErrInvalidCompanyURL`; and
every other well-formed absolute URL is accepted, the call proceeding
to the fetch-and-extract stage. -/
theorem claim_C5_validation (w : FetchWorld) (companyURL companyName : String) :
    (stringContains companyURL "facebook.com" = true →
      GetCompanyEmail w companyURL companyName
        = ("", some (.skippingFacebookURL companyURL)))
    ∧ (stringContains companyURL "facebook.com" = false →
      (parseRequestURI companyURL = none →
        GetCompanyEmail w companyURL companyName
          = ("", some (.invalidCompanyURL companyURL)))
      ∧ (∀ u, parseRequestURI companyURL = some u →
          ((u.scheme = "" ∨ u.host = "") →
            GetCompanyEmail w companyURL companyName
              = ("", some (.invalidCompanyURL companyURL)))
          ∧ (u.scheme ≠ "" → u.host ≠ "" →
            GetCompanyEmail w companyURL companyName
              = fetchAndExtractEmail w companyURL companyName))) := by
  refine ⟨fun hfb => ?_, fun hfb => ⟨fun hp => ?_, fun u hp => ⟨fun hempty => ?_, fun hs hh => ?_⟩⟩⟩
  · unfold GetCompanyEmail; simp [hfb]
  · unfold GetCompanyEmail; simp [hfb, hp]
  · unfold GetCompanyEmail; simp [hfb, hp, hempty]
  · unfold GetCompanyEmail; simp [hfb, hp, hs, hh]

/-- Witness for C5: `"https://acme.example/about"` contains no skipped
domain, parses with non-empty scheme and host, and is accepted —
`GetCompanyEmail` proceeds to fetch and extraction. -/
theorem claim_C5_witness :
    stringContains "https://acme.example/about" "facebook.com" = false
    ∧ parseRequestURI "https://acme.example/about" = some ⟨"https", "acme.example"⟩
    ∧ GetCompanyEmail fetchWorldEx "https://acme.example/about" "Acme Co"
        = fetchAndExtractEmail fetchWorldEx "https://acme.example/about" "Acme Co" :=
  ⟨by decide, by decide,
    (((claim_C5_validation fetchWorldEx "https://acme.example/about" "Acme Co").2
        (by decide)).2 ⟨"https", "acme.example"⟩ (by decide)).2 (by decide) (by decide)⟩

/-- **C2.** For every company whose URL resolution succeeded but whose
`GetCompanyEmail` failed, `main.go` still reaches the write step for
that company with whatever email value came back — which is the empty
string — rather than skipping the write. -/
theorem claim_C2_write_on_email_failure (env : CompanyEnv) (name companyURL : String)
    (e : ScrapeError)
    (hsearch : GetSearchResults env.search name = (companyURL, none))
    (hemail : (GetCompanyEmail env.fetch companyURL name).2 = some e) :
    (processCompany env name).written
        = some ((GetCompanyEmail env.fetch companyURL name).1)
    ∧ (processCompany env name).written = some "" := by
  have hfst := getCompanyEmail_error_fst env.fetch companyURL name e hemail
  unfold processCompany
  rw [hsearch]
  refine ⟨rfl, ?_⟩
  show some ((GetCompanyEmail env.fetch companyURL name).1) = some ""
  rw [hfst]

/-- Witness for C2: resolution yields a Facebook URL, `GetCompanyEmail`
fails with the skip error, and the write step is still called with the
empty email. -/
theorem claim_C2_witness :
    GetSearchResults envFacebookResult.search "Acme Co"
        = ("https://www.facebook.com/x", none)
    ∧ (processCompany envFacebookResult "Acme Co").written = some "" :=
  ⟨by decide,
    (claim_C2_write_on_email_failure envFacebookResult "Acme Co"
      "https://www.facebook.com/x" (.skippingFacebookURL "https://www.facebook.com/x")
      (by decide) (by decide)).2⟩

/-- One loop iteration appends exactly one record. -/
lemma stepPipeline_records (env : CompanyEnv) (st : PipelineState) (name : String) :
    (stepPipeline env st name).records = st.records ++ [processCompany env name] := by
  cases h : (processCompany env name).written <;> simp only [stepPipeline, h]

/-- One loop iteration appends exactly one `output[...]` assignment. -/
lemma stepPipeline_outputHist (env : CompanyEnv) (st : PipelineState) (name : String) :
    (stepPipeline env st name).outputHist
      = st.outputHist ++ [(name, (processCompany env name).urlRecorded)] := by
  cases h : (processCompany env name).written <;> simp only [stepPipeline, h]

/-- The loop records every company, in input order, relative to any
starting state. -/
lemma foldl_stepPipeline_records (env : CompanyEnv) :
    ∀ (names : List String) (st : PipelineState),
      (names.foldl (stepPipeline env) st).records
        = st.records ++ names.map (processCompany env)
  | [], st => by simp
  | n :: rest, st => by
    rw [List.foldl_cons, foldl_stepPipeline_records env rest, stepPipeline_records]
    simp

/-- The loop performs every `output[...]` assignment, in input order,
relative to any starting state. -/
lemma foldl_stepPipeline_outputHist (env : CompanyEnv) :
    ∀ (names : List String) (st : PipelineState),
      (names.foldl (stepPipeline env) st).outputHist
        = st.outputHist ++ names.map (fun n => (n, (processCompany env n).urlRecorded))
  | [], st => by simp
  | n :: rest, st => by
    rw [List.foldl_cons, foldl_stepPipeline_outputHist env rest, stepPipeline_outputHist]
    simp

/-- **C1.** For every environment and every list of company names,
`main.go`'s loop processes every company in input order and never
aborts: the run produces exactly one record per input name, in order,
and one `output[...]` assignment per input name, in order; and whenever
`GetSearchResults` fails for a company, that company's record carries
the empty URL, the logged reason, no printed email error, and no write
(the `continue` path). -/
theorem claim_C1_batch_isolation (env : CompanyEnv) (companyNames : List String) :
    (runPipeline env companyNames).records = companyNames.map (processCompany env)
    ∧ (runPipeline env companyNames).outputHist
        = companyNames.map (fun n => (n, (processCompany env n).urlRecorded))
    ∧ (∀ name e, (GetSearchResults env.search name).2 = some e →
        processCompany env name
          = { name := name, urlRecorded := "", searchLog := some e
              emailErrPrinted := none, written := none }) := by
  refine ⟨?_, ?_, ?_⟩
  · rw [runPipeline, foldl_stepPipeline_records]; rfl
  · rw [runPipeline, foldl_stepPipeline_outputHist]; rfl
  · intro name e h
    unfold processCompany
    rcases hr : GetSearchResults env.search name with ⟨s, o⟩
    rw [hr] at h
    cases o with
    | none => cases h
    | some e' =>
      cases h
      rfl

/-- Witness for C1: with an empty API key both companies fail to
resolve, yet both are processed in order, each recorded with the empty
URL and the logged reason. -/
theorem claim_C1_witness :
    (runPipeline envNoKey ["Acme Co", "Ghost Inc"]).records
        = ["Acme Co", "Ghost Inc"].map (processCompany envNoKey)
    ∧ (GetSearchResults envNoKey.search "Acme Co").2 = some .apiKeyNotSet
    ∧ processCompany envNoKey "Acme Co"
        = { name := "Acme Co", urlRecorded := "", searchLog := some .apiKeyNotSet
            emailErrPrinted := none, written := none } :=
  ⟨(claim_C1_batch_isolation envNoKey ["Acme Co", "Ghost Inc"]).1, by decide,
    (claim_C1_batch_isolation envNoKey ["Acme Co", "Ghost Inc"]).2.2 "Acme Co"
      .apiKeyNotSet (by decide)⟩

/-- `breakNL` splits exactly at the first newline. -/
lemma breakNL_append (pre rest : List Char) (h : '\n' ∉ pre) :
    breakNL (pre ++ '\n' :: rest) = (pre, some rest) := by
  induction pre with
  | nil => simp [breakNL]
  | cons c t ih =>
    have hc : ¬ (c = '\n') := fun hc => h (hc ▸ List.mem_cons_self c t)
    have ht : '\n' ∉ t := fun hm => h (List.mem_cons_of_mem c hm)
    simp only [List.cons_append, breakNL, List.append_eq, if_neg hc, ih ht]

/-- `dropCR` leaves a line not ending in `\r` unchanged. -/
lemma dropCR_eq_self (l : List Char) (h : l.getLast? ≠ some '\r') :
    dropCR l = l := by
  unfold dropCR
  rw [if_neg h]

/-- Unfolding equation for `scanLinesAux` on a non-empty input with
positive fuel. -/
lemma scanLinesAux_succ (fuel : Nat) (cs : List Char) (h : cs ≠ []) :
    scanLinesAux (fuel + 1) cs =
      (match breakNL cs with
      | (line, some after) => dropCR line :: scanLinesAux fuel after
      | (line, none) => [dropCR line]) := by
  cases cs with
  | nil => exact absurd rfl h
  | cons c rest => rfl

/-- Reading back a newline-delimited file produced from well-formed
lines (no embedded newline, no trailing `\r`) recovers exactly those
lines, for any sufficient fuel. -/
lemma scanLinesAux_roundtrip :
    ∀ (names : List String),
      (∀ n ∈ names, '\n' ∉ n.toList ∧ n.toList.getLast? ≠ some '\r') →
      ∀ fuel, (mkInputFile names).toList.length ≤ fuel →
        scanLinesAux fuel (mkInputFile names).toList = names.map String.toList
  | [], _, fuel, _ => by cases fuel <;> rfl
  | n :: rest, h, fuel, hfuel => by
    have hn := h n (List.mem_cons_self n rest)
    have hrest : ∀ m ∈ rest, '\n' ∉ m.toList ∧ m.toList.getLast? ≠ some '\r' :=
      fun m hm => h m (List.mem_cons_of_mem n hm)
    have hdata : (mkInputFile (n :: rest)).toList
        = n.toList ++ '\n' :: (mkInputFile rest).toList := by
      show (n ++ "\n" ++ mkInputFile rest).data = n.data ++ '\n' :: (mkInputFile rest).data
      rw [String.data_append, String.data_append, List.append_assoc]
      rfl
    rw [hdata] at hfuel ⊢
    have hlen : (mkInputFile rest).toList.length + 1 ≤ fuel := by
      have := hfuel
      simp only [List.length_append, List.length_cons] at this
      omega
    obtain ⟨f, rfl⟩ : ∃ f, fuel = f + 1 := ⟨fuel - 1, by omega⟩
    rw [scanLinesAux_succ f _ (by simp), breakNL_append _ _ hn.1]
    simp only
    rw [dropCR_eq_self _ hn.2, scanLinesAux_roundtrip rest hrest f (by omega)]
    rfl

/-- **C8.** For every newline-delimited input file built from a list of
company names — in particular blank lines, which become empty names —
`ReadCompanyNames` returns exactly those names, one entry per line, in
the file's line order, without skipping or filtering blank lines.  The
hypotheses say only that each name is a single line (no embedded
newline) not ending in `\r` (which the scanner would strip). -/
theorem claim_C8_read_lines_in_order (names : List String)
    (h : ∀ n ∈ names, '\n' ∉ n.toList ∧ n.toList.getLast? ≠ some '\r') :
    ReadCompanyNames (mkInputFile names) = names := by
  unfold ReadCompanyNames
  rw [scanLinesAux_roundtrip names h _ le_rfl, List.map_map]
  exact List.map_id'' (fun s => rfl) names

/-- Witness for C8: a file with a blank middle line yields the empty
name in position, unskipped. -/
theorem claim_C8_witness :
    (∀ n ∈ ["stanbic bank", "", "clinicpesa"],
      '\n' ∉ n.toList ∧ n.toList.getLast? ≠ some '\r')
    ∧ ReadCompanyNames (mkInputFile ["stanbic bank", "", "clinicpesa"])
        = ["stanbic bank", "", "clinicpesa"] :=
  ⟨by decide, claim_C8_read_lines_in_order ["stanbic bank", "", "clinicpesa"] (by decide)⟩

/-!
## Claim C4: email extraction -/

/-- Every element of a `takeWhile` satisfies the predicate. -/
lemma all_takeWhile_self (p : Char → Bool) (l : List Char) :
    (l.takeWhile p).all p = true :=
  List.all_eq_true.mpr fun _ hx => List.mem_takeWhile_imp hx

/-- A list starting with two letters has an alpha-run of length at
least two. -/
lemma twoAlpha_alphaRun (l : List Char) (h : twoAlpha l = true) :
    2 ≤ alphaRunLen l := by
  match l with
  | [] => simp [twoAlpha] at h
  | [a] => simp [twoAlpha] at h
  | a :: b :: t =>
    simp only [twoAlpha, Bool.and_eq_true] at h
    simp only [alphaRunLen, List.takeWhile_cons, h.1, h.2, if_true, List.length_cons]
    omega

/-- Correctness of `findLastGoodDot`: the returned index points at a
dot followed by at least two letters. -/
lemma findLastGoodDot_spec :
    ∀ (ds : List Char) (k : Nat), findLastGoodDot ds = some k →
      ∃ tl, ds.drop k = '.' :: tl ∧ twoAlpha tl = true
  | [], k, h => by simp [findLastGoodDot] at h
  | c :: rest, k, h => by
    rw [findLastGoodDot] at h
    cases hrec : findLastGoodDot rest with
    | some j =>
      rw [hrec] at h
      simp only [Option.some.injEq] at h
      obtain ⟨tl, h1, h2⟩ := findLastGoodDot_spec rest j hrec
      subst h
      exact ⟨tl, by simpa using h1, h2⟩
    | none =>
      rw [hrec] at h
      by_cases hc : (c = '.' && twoAlpha rest) = true
      · rw [if_pos hc] at h
        simp only [Option.some.injEq] at h
        subst h
        simp only [Bool.and_eq_true, decide_eq_true_eq] at hc
        exact ⟨rest, by simp [hc.1], hc.2⟩
      · rw [if_neg hc] at h
        cases h


/-- Any match produced by `matchLen` has the declarative shape of the
email pattern. -/
lemma matchLen_shape (cs : List Char) (n : Nat) (h : matchLen cs = some n) :
    isEmailShape (cs.take n) := by
  simp only [matchLen] at h
  by_cases h0 : (cs.takeWhile isLocalChar).length = 0
  · rw [if_pos h0] at h; cases h
  rw [if_neg h0] at h
  cases hdr : cs.drop (cs.takeWhile isLocalChar).length with
  | nil => rw [hdr] at h; cases h
  | cons c rest =>
    rw [hdr] at h
    dsimp only at h
    by_cases hc : c = '@'
    · rw [if_pos hc] at h
      subst hc
      cases hfd : findLastGoodDot (rest.takeWhile isDomainChar) with
      | none => rw [hfd] at h; cases h
      | some k =>
        rw [hfd] at h
        dsimp only at h
        by_cases hk : k = 0
        · rw [if_pos hk] at h; cases h
        rw [if_neg hk] at h
        simp only [Option.some.injEq] at h
        subst h
        obtain ⟨t, ht⟩ := List.takeWhile_prefix (l := cs) isLocalChar
        have hdropt := List.drop_left (cs.takeWhile isLocalChar) t
        rw [ht] at hdropt
        rw [hdropt] at hdr
        subst hdr
        obtain ⟨lp, hall_lp, hlpeq⟩ :
            ∃ lp, List.all lp isLocalChar = true ∧ cs.takeWhile isLocalChar = lp :=
          ⟨_, all_takeWhile_self _ _, rfl⟩
        rw [hlpeq] at ht h0 ⊢
        subst ht
        obtain ⟨t2, ht2⟩ := List.takeWhile_prefix (l := rest) isDomainChar
        obtain ⟨tl, hdl, htw⟩ := findLastGoodDot_spec _ k hfd
        have hklen : k < (rest.takeWhile isDomainChar).length := by
          by_contra hge
          push_neg at hge
          rw [List.drop_eq_nil_of_le hge] at hdl
          cases hdl
        have hdk1 : (rest.takeWhile isDomainChar).drop (k + 1) = tl := by
          rw [← List.drop_drop 1 k (rest.takeWhile isDomainChar), hdl]
          simp
        have hdtk : (rest.takeWhile isDomainChar).take k ++ '.' :: tl
            = rest.takeWhile isDomainChar := by
          conv_rhs => rw [← List.take_append_drop k (rest.takeWhile isDomainChar)]
          rw [hdl]
        have hdtklen : ((rest.takeWhile isDomainChar).take k).length = k := by
          rw [List.length_take]
          omega
        have hlenD : (rest.takeWhile isDomainChar).length = k + 1 + tl.length := by
          conv_lhs => rw [← hdtk]
          simp only [List.length_append, List.length_cons, hdtklen]
          omega
        have haRun : alphaRunLen ((rest.takeWhile isDomainChar).drop (k + 1))
            = (tl.takeWhile Char.isAlpha).length := by
          rw [hdk1]
          rfl
        have haRunLe : (tl.takeWhile Char.isAlpha).length ≤ tl.length :=
          (List.takeWhile_prefix Char.isAlpha (l := tl)).length_le
        have htake : (lp ++ '@' :: rest).take (lp.length + 1 +
              (k + 1 + alphaRunLen ((rest.takeWhile isDomainChar).drop (k + 1))))
            = lp ++ '@' ::
              ((rest.takeWhile isDomainChar).take k ++ '.' :: tl.takeWhile Char.isAlpha) := by
          rw [haRun]
          rw [show lp.length + 1 + (k + 1 + (tl.takeWhile Char.isAlpha).length)
              = lp.length + (1 + (k + 1 + (tl.takeWhile Char.isAlpha).length)) from by omega]
          rw [List.take_append]
          congr 1
          rw [show 1 + (k + 1 + (tl.takeWhile Char.isAlpha).length)
              = (k + 1 + (tl.takeWhile Char.isAlpha).length) + 1 from by omega]
          rw [List.take_succ_cons]
          congr 1
          conv_lhs => rw [← ht2]
          rw [List.take_append_of_le_length
            (by omega : k + 1 + (tl.takeWhile Char.isAlpha).length
              ≤ (rest.takeWhile isDomainChar).length)]
          conv_lhs => rw [← hdtk]
          rw [show k + 1 + (tl.takeWhile Char.isAlpha).length
              = ((rest.takeWhile isDomainChar).take k).length +
                ((tl.takeWhile Char.isAlpha).length + 1) from by rw [hdtklen]; omega]
          rw [List.take_append]
          congr 1
          rw [List.take_succ_cons]
          congr 1
          exact (List.prefix_iff_eq_take.mp (List.takeWhile_prefix Char.isAlpha)).symm
        rw [htake]
        refine ⟨lp, (rest.takeWhile isDomainChar).take k,
          tl.takeWhile Char.isAlpha, rfl, ?_, hall_lp, ?_,
          ?_, ?_, all_takeWhile_self _ _⟩
        · intro hnil
          exact h0 (by rw [hnil]; rfl)
        · intro hnil
          apply hk
          have hlen0 := congrArg List.length hnil
          rw [hdtklen] at hlen0
          simpa using hlen0
        · exact List.all_eq_true.mpr fun x hx =>
            List.mem_takeWhile_imp (List.take_subset _ _ hx)
        · have h2 := twoAlpha_alphaRun tl htw
          simpa [alphaRunLen] using h2
    · rw [if_neg hc] at h; cases h


/-- Every string the scan emits has the email-pattern shape. -/
lemma findEmailsAux_shape :
    ∀ (fuel : Nat) (cs e : List Char), e ∈ findEmailsAux fuel cs → isEmailShape e
  | 0, _, e, h => by simp [findEmailsAux] at h
  | fuel + 1, [], e, h => by simp [findEmailsAux] at h
  | fuel + 1, c :: rest, e, h => by
    rw [findEmailsAux] at h
    cases hm : matchLen (c :: rest) with
    | some n =>
      rw [hm] at h
      rcases List.mem_cons.mp h with he | he
      · exact he ▸ matchLen_shape _ _ hm
      · exact findEmailsAux_shape fuel _ e he
    | none =>
      rw [hm] at h
      exact findEmailsAux_shape fuel rest e h

/-- **C4.** For every fetched text, email extraction scans the text
for the non-overlapping matches of the email pattern, in document
order; it fails with `ErrNoEmailFound` naming the company exactly when
there are zero matches, and otherwise returns exactly the first match —
and every match (in particular the returned one) really has the shape
`[a-zA-Z0-9._%+-]+@[a-zA-Z0-9.-]+\.[a-zA-Z]\x7b2,\x7d`. -/
theorem claim_C4_email_extraction (bodyStr companyName : String) :
    (findEmails bodyStr.toList = [] →
      extractFirstEmail bodyStr companyName
        = ("", some (.noEmailFound companyName)))
    ∧ (∀ e rest, findEmails bodyStr.toList = e :: rest →
        extractFirstEmail bodyStr companyName = (String.mk e, none))
    ∧ (∀ e ∈ findEmails bodyStr.toList, isEmailShape e) := by
  refine ⟨fun h => ?_, fun e rest h => ?_, fun e he => findEmailsAux_shape _ _ e he⟩
  · unfold extractFirstEmail
    rw [h]
  · unfold extractFirstEmail
    rw [h]

/-- Witness for C4: a page with one address yields exactly that
address. -/
theorem claim_C4_witness :
    findEmails ("Contact us at test@example.com now".toList)
        = ["test@example.com".toList]
    ∧ extractFirstEmail "Contact us at test@example.com now" "Test Company"
        = ("test@example.com", none) :=
  ⟨by decide,
    (claim_C4_email_extraction "Contact us at test@example.com now" "Test Company").2.1
      "test@example.com".toList [] (by decide)⟩

end Scraper
